import Mathlib

/-!
Verification of the admission-control core of the `sloth` structured-logging
library: the rate-limiting handler (package `rate`: `rate.go`, `counter.go`)
and the request-scoped sampling handler with deferred buffering (package
`sampling`).  The Go code is embedded shallowly: the shared atomic counter
table becomes explicit state threaded through `Handle`, the bounded channel
plus overflow slice of the record buffer becomes a pair of lists, and a
downstream `slog.Handler`'s `Handle` method is an abstract function
`Ctx → Record → Option ε` (`none` = nil error).  Handler invocations made by
the code are collected into trace lists, so "forwarded", "deferred" and
"dropped" are statements about those traces.  The `uint64` record counter is
modelled as `Nat` (its wrap-around at `2^64` is unreachable within any window
considered) and `int64` nanosecond timestamps as `Int`.
-/

/-- A structured log record, with the fields the admission-control core
reads: `Time` (Unix nanoseconds), `Level` (`slog.Level`, an integer), and
`Message` given by its UTF-8 bytes.  Attribute payloads are never inspected
by the rate or sampling packages, so they are not modelled. -/
structure Record where
  time : Int
  level : Int
  message : List Nat
deriving Repr, DecidableEq

/-- `slog.LevelDebug = -4`. -/
def LevelDebug : Int := -4

/-- `slog.LevelInfo = 0`. -/
def LevelInfo : Int := 0

/-- `slog.LevelWarn = 4`. -/
def LevelWarn : Int := 4

/-- `slog.LevelError = 8`. -/
def LevelError : Int := 8

namespace Rate

/-- `countersPerLevel = 4096` (counter.go). -/
def countersPerLevel : Nat := 4096

/-- `gapPerLevel = slog.LevelError - slog.LevelWarn` (counter.go). -/
def gapPerLevel : Int := LevelError - LevelWarn

/-- `levels = (slog.LevelError-slog.LevelDebug)/gapPerLevel + 1` (counter.go). -/
def levels : Int := (LevelError - LevelDebug) / gapPerLevel + 1

/-- FNV-1a 32-bit hash of the key's bytes (counter.go `fnv32a`):
`hash = 2166136261`; for each byte `hash = ((hash XOR byte) * 16777619) mod 2^32`.
Each byte is `< 256`, so the XOR stays below `2^32` and the single reduction
after the multiplication matches Go's `uint32` arithmetic exactly. -/
def fnv32a (str : List Nat) : Nat :=
  str.foldl (fun hash b => ((hash ^^^ b) * 16777619) % 4294967296) 2166136261

/-- Index of the counter cell chosen by `counters.get` (counter.go):
`i := (min(slog.LevelDebug, max(slog.LevelError, level)) - slog.LevelDebug) / gapPerLevel`
(Go integer division truncates toward zero, i.e. `Int.div`), and
`j := fnv32a(key) % countersPerLevel`. -/
def countersGet (level : Int) (key : List Nat) : Int × Nat :=
  (Int.tdiv (min LevelDebug (max LevelError level) - LevelDebug) gapPerLevel,
   fnv32a key % countersPerLevel)

/-- One cell of the counter table (counter.go `counter`): `resetAt` is the
`atomic.Int64` deadline of the current window, `count` (named `counter` in
the Go source) the `atomic.Uint64` ordinal count. -/
structure counter where
  resetAt : Int
  count : Nat
deriving Repr, DecidableEq

/-- `counter.Inc(t, interval)` (counter.go), sequentialized: loads `resetAt`;
if it is still in the future the count is atomically incremented and the new
value returned; otherwise the count is stored as `1` and `resetAt` is
compare-and-swapped from the loaded value to `now + interval`.  With no
interleaved writer the CAS's compare always sees the value just loaded, so
the swap succeeds and the call returns `1`; the code's failure branch
(re-increment after a racing reset) is unreachable sequentially and the
`if` below keeps its shape. -/
def counter.Inc (c : counter) (t : Int) (interval : Int) : Nat × counter :=
  let now := t
  let resetAfter := c.resetAt
  if resetAfter > now then
    (c.count + 1, { c with count := c.count + 1 })
  else
    -- c.counter.Store(1)
    let c1 : counter := { c with count := 1 }
    let newResetAfter := now + interval
    -- c.resetAt.CompareAndSwap(resetAfter, newResetAfter)
    if c1.resetAt = resetAfter then
      (1, { c1 with resetAt := newResetAfter })
    else
      (c1.count + 1, { c1 with count := c1.count + 1 })

/-- The `counters` table, `[levels][countersPerLevel]counter`, modelled as a
total function from cell index to cell contents.  Go zero-initializes the
array, so the fresh table is `fun _ => ⟨0, 0⟩`. -/
def counters : Type := Int × Nat → counter

/-- The fresh, zero-initialized counter table. -/
def counters.fresh : counters := fun _ => ⟨0, 0⟩

/-- `counters.get` followed by writing back the updated cell: increments the
cell selected by `(level, key)` and returns the ordinal with the new table. -/
def counters.inc (tbl : counters) (level : Int) (key : List Nat)
    (t : Int) (interval : Int) : Nat × counters :=
  let idx := countersGet level key
  let res := counter.Inc (tbl idx) t interval
  (res.1, fun i => if i = idx then res.2 else tbl i)

/-- The rate-limiting `Handler` (rate.go): the wrapped downstream handler is
its `Handle` function; `counts` is the identity of the shared `*counters`
pointer (two handlers with equal `counts` share one table). -/
structure Handler (Ctx ε : Type) where
  handler : Ctx → Record → Option ε
  interval : Int
  first : Nat
  every : Nat
  counts : Nat

/-- Result of one rate-limited `Handle` call: `n` is the ordinal the counter
returned, `forwarded` whether the downstream handler was invoked, `err` the
value `Handle` returned, `tbl` the counter table afterwards. -/
structure HandleResult (ε : Type) where
  n : Nat
  forwarded : Bool
  err : Option ε
  tbl : counters

/-- `Handler.Handle` (rate.go): fetch the ordinal for the record's
`(level, message)` shard, drop (return nil) when
`n > first && (every == 0 || (n-first)%every != 0)`, otherwise forward the
record unmodified and return the downstream result.  `tbl` is the table the
handler's `counts` pointer refers to. -/
def Handler.Handle (h : Handler Ctx ε) (tbl : counters) (ctx : Ctx)
    (record : Record) : HandleResult ε :=
  let res := counters.inc tbl record.level record.message record.time h.interval
  if res.1 > h.first ∧ (h.every = 0 ∨ (res.1 - h.first) % h.every ≠ 0) then
    ⟨res.1, false, none, res.2⟩
  else
    ⟨res.1, true, h.handler ctx record, res.2⟩

/-- `Handler.WithAttrs` (rate.go): the value receiver is copied with only the
wrapped downstream handler replaced by its `WithAttrs` derivative, here an
abstract transformation `wa` of the downstream `Handle` function. -/
def Handler.WithAttrs (h : Handler Ctx ε)
    (wa : (Ctx → Record → Option ε) → Ctx → Record → Option ε) : Handler Ctx ε :=
  { h with handler := wa h.handler }

/-- `Handler.WithGroup` (rate.go): same shape as `WithAttrs` with the
downstream's `WithGroup` derivative. -/
def Handler.WithGroup (h : Handler Ctx ε)
    (wg : (Ctx → Record → Option ε) → Ctx → Record → Option ε) : Handler Ctx ε :=
  { h with handler := wg h.handler }

/-- Sequential run of `Handle` over a list of records, threading the counter
table; returns the per-record `forwarded` flags in order. -/
def Handler.run (h : Handler Ctx ε) (tbl : counters) (ctx : Ctx) :
    List Record → List Bool × counters
  | [] => ([], tbl)
  | r :: rs =>
    let res := h.Handle tbl ctx r
    let rest := h.run res.tbl ctx rs
    (res.forwarded :: rest.1, rest.2)

end Rate

namespace Sampling

/-- One deferred log call (sampling package, type `entry`): the downstream
handler it is destined for, the call's context, and the record. -/
structure entry (Ctx ε : Type) where
  handler : Ctx → Record → Option ε
  ctx : Ctx
  record : Record

/-- The request-scoped record buffer (sampling package, type `buffer`):
`entries` models the contents of the bounded channel `chan entry` (front of
the list = next value received), `cap` its capacity (8 for every buffer the
pool creates), `overflow` the spill slice, `drained` the `atomic.Bool`
one-shot flag. -/
structure buffer (Ctx ε : Type) where
  entries : List (entry Ctx ε)
  cap : Nat
  overflow : List (entry Ctx ε)
  drained : Bool

/-- The channel-send-or-evict loop inside `buffer.buffer` for an un-drained
buffer: the `select` send succeeds when the channel has room; otherwise the
oldest entry is received from the channel into `overflow` and the send is
retried, which then succeeds because one slot was freed.  (With `cap = 0` the
Go code would block forever on `<-b.entries`; every pooled buffer has
`cap = 8`, and all theorems below assume `cap ≥ 1`.) -/
def buffer.push (b : buffer Ctx ε) (e : entry Ctx ε) : buffer Ctx ε :=
  if b.entries.length < b.cap then
    { b with entries := b.entries ++ [e] }
  else
    match b.entries with
    | [] => { b with entries := [e] }
    | old :: rest => { b with overflow := b.overflow ++ [old], entries := rest ++ [e] }

/-- `buffer.buffer(ctx, handler, record)` (sampling package): if the buffer
was already drained the entry bypasses buffering and is handled directly
(its result returned); otherwise it is enqueued and the call returns nil.
The middle component lists the downstream `Handle` calls the method makes. -/
def buffer.buffer (b : buffer Ctx ε) (ctx : Ctx)
    (handler : Ctx → Record → Option ε) (record : Record) :
    Option ε × List (entry Ctx ε) × buffer Ctx ε :=
  if b.drained then
    (handler ctx record, [⟨handler, ctx, record⟩], b)
  else
    (none, [], b.push ⟨handler, ctx, record⟩)

/-- `buffer.drain()` (sampling package): swap the `drained` flag; the caller
that flips it false→true handles every overflow entry (in order, each result
ignored), clears `overflow`, then receives and handles channel entries until
the channel is empty; any other caller returns at once.  The first component
lists, in order, the entries whose handlers were invoked. -/
def buffer.drain (b : Sampling.buffer Ctx ε) : List (entry Ctx ε) × Sampling.buffer Ctx ε :=
  if b.drained then
    ([], b)
  else
    (b.overflow ++ b.entries,
     { b with overflow := [], entries := [], drained := true })

/-- `buffer.reset()` (sampling package): swap `drained` back to false; when
the buffer had not been drained, receive and discard every channel entry;
in either case clear `overflow` and return the buffer to the pool.  No
downstream handler is ever invoked. -/
def buffer.reset (b : Sampling.buffer Ctx ε) : Sampling.buffer Ctx ε :=
  if b.drained then
    { b with drained := false, overflow := [] }
  else
    { b with drained := false, entries := [], overflow := [] }

/-- The sampling `Handler` (sampling package): wrapped downstream handler
(`handler` its `Handle`, `enabledD` its `Enabled`), the sampling decision
function, and the minimum level. -/
structure Handler (Ctx ε : Type) where
  handler : Ctx → Record → Option ε
  enabledD : Ctx → Int → Bool
  sampler : Ctx → Bool
  level : Int

/-- `Handler.Enabled(ctx, level)` (sampling package): false when the
downstream is disabled; otherwise, when no buffer is bound to the context
and the sampler declines, enabled iff `level ≥ h.level`; otherwise true.
`buf` models `ctx.Value(contextKey{})`: the buffer bound to the context,
if any. -/
def Handler.Enabled (h : Handler Ctx ε) (ctx : Ctx)
    (buf : Option (Sampling.buffer Ctx ε)) (level : Int) : Bool :=
  if !h.enabledD ctx level then
    false
  else if buf.isNone && !h.sampler ctx then
    decide (level ≥ h.level)
  else
    true

/-- `Handler.Handle(ctx, record)` (sampling package): a sampled call is
forwarded downstream at once; otherwise, with a buffer bound to the context,
a record below the minimum level goes to `buffer.buffer` and a record at or
above it first drains the buffer; every non-buffered path ends in
`h.handler.Handle(ctx, record)`.  Returns the error `Handle` returns, the
trace of downstream `Handle` calls made (in order), and the buffer's new
state. -/
def Handler.Handle (h : Handler Ctx ε) (ctx : Ctx)
    (buf : Option (Sampling.buffer Ctx ε)) (record : Record) :
    Option ε × List (entry Ctx ε) × Option (Sampling.buffer Ctx ε) :=
  if h.sampler ctx then
    (h.handler ctx record, [⟨h.handler, ctx, record⟩], buf)
  else
    match buf with
    | some b =>
      if record.level < h.level then
        let res := b.buffer ctx h.handler record
        (res.1, res.2.1, some res.2.2)
      else
        let res := b.drain
        (h.handler ctx record, res.1 ++ [⟨h.handler, ctx, record⟩], some res.2)
    | none =>
      (h.handler ctx record, [⟨h.handler, ctx, record⟩], none)

/-- Sequential run of `buffer.buffer` over a list of entries, threading the
buffer state and concatenating the traces of direct downstream calls. -/
def buffer.run (b : Sampling.buffer Ctx ε) :
    List (entry Ctx ε) → List (entry Ctx ε) × Sampling.buffer Ctx ε
  | [] => ([], b)
  | e :: es =>
    let step := b.buffer e.ctx e.handler e.record
    let rest := (step.2.2).run es
    (step.2.1 ++ rest.1, rest.2)

end Sampling

/-- Claim C3 (code bug exhibit): `counters.get` writes
`min(slog.LevelDebug, max(slog.LevelError, level))`, whose value is
`LevelDebug` for every `level` because `max(LevelError, level) ≥ LevelError >
LevelDebug`; the intended clamp is `min(LevelError, max(LevelDebug, level))`.
Consequently Debug, Info and Error records with the same key all select the
same counter cell (bucket 0), contradicting the claimed distinct buckets,
and an out-of-range level such as 100 lands in bucket 0 rather than the
nearest boundary's bucket. -/
theorem rate_shard_level_collapse :
    Rate.countersGet LevelDebug [109, 115, 103] = Rate.countersGet LevelError [109, 115, 103] ∧
    Rate.countersGet LevelInfo [109, 115, 103] = Rate.countersGet LevelError [109, 115, 103] ∧
    (Rate.countersGet 100 [109, 115, 103]).1 = 0 ∧
    (Rate.countersGet LevelError [109, 115, 103]).1 = 0 := by
  decide

/-- Claim C5: `counter.Inc` with timestamp strictly before the stored
`resetAt` increments the count and returns the new value; otherwise it
resets the count to 1, and the compare-and-swap — which always succeeds in a
sequential run — moves `resetAt` to `now + interval` and the call returns
ordinal 1.  In particular a sequential call at or past the previous window's
deadline returns 1. -/
theorem rate_counter_inc_window (c : Rate.counter) (now I : Int) :
    (now < c.resetAt →
      Rate.counter.Inc c now I = (c.count + 1, ⟨c.resetAt, c.count + 1⟩)) ∧
    (c.resetAt ≤ now →
      Rate.counter.Inc c now I = (1, ⟨now + I, 1⟩)) := by
  constructor
  · intro h
    simp [Rate.counter.Inc, h]
  · intro h
    simp [Rate.counter.Inc, not_lt.mpr h]

/-- Witness for C5: a live window (now 3 < resetAt 10) increments 5 to 6; an
expired window (now 12 ≥ resetAt 10) resets to ordinal 1 with the new
deadline 12 + 7 = 19. -/
theorem rate_counter_inc_window_witness :
    Rate.counter.Inc ⟨10, 5⟩ 3 7 = (6, ⟨10, 6⟩) ∧
    Rate.counter.Inc ⟨10, 5⟩ 12 7 = (1, ⟨19, 1⟩) :=
  ⟨(rate_counter_inc_window ⟨10, 5⟩ 3 7).1 (by decide),
   (rate_counter_inc_window ⟨10, 5⟩ 12 7).2 (by decide)⟩

/-- Claim C6: `drain` is one-shot — an un-drained buffer's `drain` flushes
the overflow followed by the queued entries and sets the flag, and a second
`drain` on the resulting buffer invokes no handler and leaves the state
unchanged, so two `drain` calls emit each buffered entry exactly once. -/
theorem sampling_drain_idempotent (b : Sampling.buffer Ctx ε)
    (hd : b.drained = false) :
    (b.drain).1 = b.overflow ++ b.entries ∧
    (b.drain).2.drained = true ∧
    ((b.drain).2).drain = ([], (b.drain).2) := by
  simp [Sampling.buffer.drain, hd]

/-- Witness for C6: a buffer holding one queued entry and one overflow entry
drains them once; the repeated drain emits nothing and is the identity. -/
theorem sampling_drain_idempotent_witness :
    (let e1 : Sampling.entry Unit Unit := ⟨fun _ _ => none, (), ⟨0, 0, []⟩⟩
     let e2 : Sampling.entry Unit Unit := ⟨fun _ _ => none, (), ⟨1, 0, []⟩⟩
     let b : Sampling.buffer Unit Unit := ⟨[e1], 8, [e2], false⟩
     (b.drain).1 = b.overflow ++ b.entries ∧
     (b.drain).2.drained = true ∧
     ((b.drain).2).drain = ([], (b.drain).2)) :=
  sampling_drain_idempotent _ rfl

/-- Claim C8: the sampling handler's `Enabled` is false whenever the
downstream is disabled; with the downstream enabled, no buffer bound and the
sampler declining it is true exactly for levels at or above the minimum; and
with the downstream enabled it is true whenever the call is sampled or a
buffer is bound. -/
theorem sampling_enabled_gate (h : Sampling.Handler Ctx ε) (ctx : Ctx)
    (buf : Option (Sampling.buffer Ctx ε)) (level : Int) :
    (h.enabledD ctx level = false → h.Enabled ctx buf level = false) ∧
    (h.enabledD ctx level = true → buf = none → h.sampler ctx = false →
      (h.Enabled ctx buf level = true ↔ h.level ≤ level)) ∧
    (h.enabledD ctx level = true → h.sampler ctx = true →
      h.Enabled ctx buf level = true) ∧
    (h.enabledD ctx level = true → ∀ b, buf = some b →
      h.Enabled ctx buf level = true) := by
  refine ⟨fun h1 => ?_, fun h1 h2 h3 => ?_, fun h1 h2 => ?_, fun h1 b h2 => ?_⟩
  · simp [Sampling.Handler.Enabled, h1]
  · subst h2
    simp [Sampling.Handler.Enabled, h1, h3, ge_iff_le]
  · simp [Sampling.Handler.Enabled, h1, h2]
  · subst h2
    simp [Sampling.Handler.Enabled, h1]

/-- Witness for C8: a handler with minimum level Error, an always-enabled
downstream and an always-false sampler: with no buffer bound, Warn (4) is
not enabled and Error (8) is; with a buffer bound, Warn is enabled. -/
theorem sampling_enabled_gate_witness :
    (let h : Sampling.Handler Unit Unit :=
      ⟨fun _ _ => none, fun _ _ => true, fun _ => false, LevelError⟩
     let b : Sampling.buffer Unit Unit := ⟨[], 8, [], false⟩
     (h.Enabled () none LevelWarn = true ↔ LevelError ≤ LevelWarn) ∧
     (h.Enabled () none LevelError = true ↔ LevelError ≤ LevelError) ∧
     h.Enabled () (some b) LevelWarn = true) :=
  ⟨(sampling_enabled_gate _ () none LevelWarn).2.1 rfl rfl rfl,
   (sampling_enabled_gate _ () none LevelError).2.1 rfl rfl rfl,
   (sampling_enabled_gate _ () (some ⟨[], 8, [], false⟩) LevelWarn).2.2.2 rfl _ rfl⟩

/-- Claim C2 counterexample: the claim says that with no bound buffer and a
declining sampler a below-minimum record is "dropped silently"; the code's
`Handle` forwards it downstream — here an Info record under minimum Error
produces a nonempty downstream trace.  (The drop the spec describes is
enforced by `Enabled`, which the `slog` front end consults before calling
`Handle`.) -/
theorem sampling_handle_nobuffer_forwards :
    (((⟨fun _ _ => none, fun _ _ => true, fun _ => false, LevelError⟩ :
        Sampling.Handler Unit Unit)).Handle () none ⟨0, LevelInfo, []⟩).2.1 ≠ [] := by
  simp [Sampling.Handler.Handle]

/-- Claim C2 (amended): for every `Handle` call — if the sampler accepts the
context the record is forwarded directly downstream, never buffered; else
with a buffer bound, a below-minimum record is appended to the buffer when
the buffer has not yet been drained and forwarded directly once it has been,
while a record at or above the minimum first drains the buffer and is then
forwarded directly; else (no buffer, unsampled) the record is forwarded —
the silent drop of below-minimum records in that case is `Enabled`'s job,
not `Handle`'s. -/
theorem sampling_handle_dispatch (h : Sampling.Handler Ctx ε) (ctx : Ctx)
    (r : Record) :
    (h.sampler ctx = true → ∀ buf,
      h.Handle ctx buf r = (h.handler ctx r, [⟨h.handler, ctx, r⟩], buf)) ∧
    (h.sampler ctx = false → ∀ b : Sampling.buffer Ctx ε,
      (r.level < h.level → b.drained = false →
        h.Handle ctx (some b) r = (none, [], some (b.push ⟨h.handler, ctx, r⟩))) ∧
      (r.level < h.level → b.drained = true →
        h.Handle ctx (some b) r = (h.handler ctx r, [⟨h.handler, ctx, r⟩], some b)) ∧
      (h.level ≤ r.level →
        h.Handle ctx (some b) r =
          (h.handler ctx r, (b.drain).1 ++ [⟨h.handler, ctx, r⟩], some (b.drain).2))) ∧
    (h.sampler ctx = false →
      h.Handle ctx none r = (h.handler ctx r, [⟨h.handler, ctx, r⟩], none)) := by
  refine ⟨fun hs buf => ?_, fun hs b => ⟨fun hlt hd => ?_, fun hlt hd => ?_, fun hge => ?_⟩,
    fun hs => ?_⟩
  · simp [Sampling.Handler.Handle, hs]
  · simp [Sampling.Handler.Handle, Sampling.buffer.buffer, hs, hlt, hd]
  · simp [Sampling.Handler.Handle, Sampling.buffer.buffer, hs, hlt, hd]
  · simp [Sampling.Handler.Handle, hs, not_lt.mpr hge]
  · simp [Sampling.Handler.Handle, hs]

/-- Witness for C2 (amended): with minimum level Error and a declining
sampler, an Info record is deferred into a fresh bound buffer, and is
forwarded directly when no buffer is bound. -/
theorem sampling_handle_dispatch_witness :
    (let h : Sampling.Handler Unit Unit :=
      ⟨fun _ _ => none, fun _ _ => true, fun _ => false, LevelError⟩
     let b : Sampling.buffer Unit Unit := ⟨[], 2, [], false⟩
     let r : Record := ⟨0, LevelInfo, []⟩
     h.Handle () (some b) r = (none, [], some (b.push ⟨h.handler, (), r⟩)) ∧
     h.Handle () none r = (h.handler () r, [⟨h.handler, (), r⟩], none)) :=
  ⟨((sampling_handle_dispatch _ () _).2.1 rfl _).1 (by decide) rfl,
   (sampling_handle_dispatch _ () _).2.2 rfl⟩

/-- Claim C9: error discipline — a rate-limited drop and a sampling deferral
return nil; every direct forwarding path (rate forward, sampled call,
drain-triggering call, no-buffer call) returns the downstream handler's
result verbatim; and the drain-triggering call's result is independent of
the buffered entries' handlers (their errors are swallowed), which the
quantification over an arbitrary buffer `b` expresses. -/
theorem error_propagation (hr : Rate.Handler Ctx ε) (hs : Sampling.Handler Ctx ε)
    (ctx : Ctx) (r : Record) :
    (∀ tbl, (hr.Handle tbl ctx r).forwarded = false →
      (hr.Handle tbl ctx r).err = none) ∧
    (∀ tbl, (hr.Handle tbl ctx r).forwarded = true →
      (hr.Handle tbl ctx r).err = hr.handler ctx r) ∧
    (hs.sampler ctx = true → ∀ buf, (hs.Handle ctx buf r).1 = hs.handler ctx r) ∧
    (hs.sampler ctx = false → ∀ b : Sampling.buffer Ctx ε, r.level < hs.level →
      b.drained = false → (hs.Handle ctx (some b) r).1 = none) ∧
    (hs.sampler ctx = false → ∀ b : Sampling.buffer Ctx ε, hs.level ≤ r.level →
      (hs.Handle ctx (some b) r).1 = hs.handler ctx r) := by
  refine ⟨fun tbl hf => ?_, fun tbl hf => ?_, fun hsam buf => ?_,
    fun hsam b hlt hd => ?_, fun hsam b hge => ?_⟩
  · by_cases hc : (Rate.counters.inc tbl r.level r.message r.time hr.interval).1 > hr.first ∧
        (hr.every = 0 ∨
          ((Rate.counters.inc tbl r.level r.message r.time hr.interval).1 - hr.first) % hr.every ≠ 0)
    · simp [Rate.Handler.Handle, hc]
    · simp [Rate.Handler.Handle, hc] at hf
  · by_cases hc : (Rate.counters.inc tbl r.level r.message r.time hr.interval).1 > hr.first ∧
        (hr.every = 0 ∨
          ((Rate.counters.inc tbl r.level r.message r.time hr.interval).1 - hr.first) % hr.every ≠ 0)
    · simp [Rate.Handler.Handle, hc] at hf
    · simp [Rate.Handler.Handle, hc]
  · simp [Sampling.Handler.Handle, hsam]
  · simp [Sampling.Handler.Handle, Sampling.buffer.buffer, hsam, hlt, hd]
  · simp [Sampling.Handler.Handle, hsam, not_lt.mpr hge]

/-- Witness for C9: a rate handler with first = 1, every = 0 drops the
second record of a window with a nil error, and forwards the first with the
downstream's (erroring) result; a sampling handler's drain-triggering call
returns the downstream result even though the single buffered entry's
handler reports an error. -/
theorem error_propagation_witness :
    (let hr : Rate.Handler Unit Nat := ⟨fun _ _ => some 7, 10, 1, 0, 0⟩
     let r : Record := ⟨0, LevelInfo, []⟩
     let tbl1 := (hr.Handle Rate.counters.fresh () r).tbl
     (hr.Handle Rate.counters.fresh () r).err = some 7 ∧
     (hr.Handle tbl1 () r).err = none) ∧
    (let hs : Sampling.Handler Unit Nat :=
      ⟨fun _ _ => some 3, fun _ _ => true, fun _ => false, LevelError⟩
     let bad : Sampling.entry Unit Nat := ⟨fun _ _ => some 99, (), ⟨0, LevelInfo, []⟩⟩
     let b : Sampling.buffer Unit Nat := ⟨[bad], 8, [], false⟩
     (hs.Handle () (some b) ⟨1, LevelError, []⟩).1 = some 3) :=
  ⟨⟨(error_propagation (⟨fun _ _ => some 7, 10, 1, 0, 0⟩ : Rate.Handler Unit Nat)
        (⟨fun _ _ => none, fun _ _ => true, fun _ => false, LevelError⟩ :
          Sampling.Handler Unit Nat) () ⟨0, LevelInfo, []⟩).2.1
      Rate.counters.fresh (by decide),
    (error_propagation (⟨fun _ _ => some 7, 10, 1, 0, 0⟩ : Rate.Handler Unit Nat)
        (⟨fun _ _ => none, fun _ _ => true, fun _ => false, LevelError⟩ :
          Sampling.Handler Unit Nat) () ⟨0, LevelInfo, []⟩).1
      _ (by decide)⟩,
   (error_propagation (⟨fun _ _ => some 7, 10, 1, 0, 0⟩ : Rate.Handler Unit Nat)
        (⟨fun _ _ => some 3, fun _ _ => true, fun _ => false, LevelError⟩ :
          Sampling.Handler Unit Nat) () ⟨1, LevelError, []⟩).2.2.2.2 rfl
      ⟨[⟨fun _ _ => some 99, (), ⟨0, LevelInfo, []⟩⟩], 8, [], false⟩ (by decide)⟩

/-- Claim C10: `WithAttrs` and `WithGroup` on the rate handler replace only
the wrapped downstream handler: the shared counter-table pointer, interval,
first and every are unchanged, so a derived handler's `Handle` computes the
same shard ordinal, makes the same pass/drop decision and leaves the counter
table in the same state as the original on every input. -/
theorem rate_with_derived_shares_counters (h : Rate.Handler Ctx ε)
    (wa wg : (Ctx → Record → Option ε) → Ctx → Record → Option ε) :
    ((h.WithAttrs wa).counts = h.counts ∧ (h.WithAttrs wa).interval = h.interval ∧
     (h.WithAttrs wa).first = h.first ∧ (h.WithAttrs wa).every = h.every ∧
     (h.WithAttrs wa).handler = wa h.handler) ∧
    ((h.WithGroup wg).counts = h.counts ∧ (h.WithGroup wg).interval = h.interval ∧
     (h.WithGroup wg).first = h.first ∧ (h.WithGroup wg).every = h.every ∧
     (h.WithGroup wg).handler = wg h.handler) ∧
    (∀ tbl ctx r,
      ((h.WithAttrs wa).Handle tbl ctx r).n = (h.Handle tbl ctx r).n ∧
      ((h.WithAttrs wa).Handle tbl ctx r).forwarded = (h.Handle tbl ctx r).forwarded ∧
      ((h.WithAttrs wa).Handle tbl ctx r).tbl = (h.Handle tbl ctx r).tbl ∧
      ((h.WithGroup wg).Handle tbl ctx r).n = (h.Handle tbl ctx r).n ∧
      ((h.WithGroup wg).Handle tbl ctx r).forwarded = (h.Handle tbl ctx r).forwarded ∧
      ((h.WithGroup wg).Handle tbl ctx r).tbl = (h.Handle tbl ctx r).tbl) := by
  refine ⟨⟨rfl, rfl, rfl, rfl, rfl⟩, ⟨rfl, rfl, rfl, rfl, rfl⟩, fun tbl ctx r => ?_⟩
  by_cases hc : (Rate.counters.inc tbl r.level r.message r.time h.interval).1 > h.first ∧
      (h.every = 0 ∨
        ((Rate.counters.inc tbl r.level r.message r.time h.interval).1 - h.first) % h.every ≠ 0)
  · simp [Rate.Handler.Handle, Rate.Handler.WithAttrs, Rate.Handler.WithGroup, hc]
  · simp [Rate.Handler.Handle, Rate.Handler.WithAttrs, Rate.Handler.WithGroup, hc]

/-- Invariants of one `push` step on a buffer whose queue respects its
capacity: the flag and capacity are untouched, the logical sequence
`overflow ++ entries` is extended by the new entry at the back, and the
queue length grows up to the capacity cap. -/
theorem sampling_push_spec (b : Sampling.buffer Ctx ε) (e : Sampling.entry Ctx ε)
    (hcap : 1 ≤ b.cap) (hlen : b.entries.length ≤ b.cap) :
    (b.push e).drained = b.drained ∧
    (b.push e).cap = b.cap ∧
    (b.push e).overflow ++ (b.push e).entries = b.overflow ++ b.entries ++ [e] ∧
    (b.push e).entries.length = min (b.entries.length + 1) b.cap := by
  by_cases hfull : b.entries.length < b.cap
  · refine ⟨?_, ?_, ?_, ?_⟩
    · simp [Sampling.buffer.push, hfull]
    · simp [Sampling.buffer.push, hfull]
    · simp [Sampling.buffer.push, hfull]
    · simp [Sampling.buffer.push, hfull]
      omega
  · have hle : b.entries.length = b.cap := le_antisymm hlen (not_lt.mp hfull)
    match hE : b.entries with
    | [] =>
      exfalso
      rw [hE] at hle
      simp at hle
      omega
    | old :: rest =>
      rw [hE] at hfull hle
      simp only [List.length_cons] at hfull hle
      refine ⟨?_, ?_, ?_, ?_⟩
      · simp [Sampling.buffer.push, hE, hfull]
      · simp [Sampling.buffer.push, hE, hfull]
      · simp [Sampling.buffer.push, hE, hfull]
      · simp [Sampling.buffer.push, hE, hfull]
        omega

/-- Invariants of a sequential `buffer.buffer` run on an un-drained buffer:
nothing is emitted, the buffer stays un-drained with the same capacity, the
logical sequence `overflow ++ entries` is extended by the appended entries
in order, and the queue length is the capacity-clamped total. -/
theorem sampling_run_spec (es : List (Sampling.entry Ctx ε))
    (b : Sampling.buffer Ctx ε) (hd : b.drained = false) (hcap : 1 ≤ b.cap)
    (hlen : b.entries.length ≤ b.cap) :
    (b.run es).1 = [] ∧
    (b.run es).2.drained = false ∧
    (b.run es).2.cap = b.cap ∧
    (b.run es).2.overflow ++ (b.run es).2.entries = (b.overflow ++ b.entries) ++ es ∧
    (b.run es).2.entries.length = min (b.entries.length + es.length) b.cap := by
  induction es generalizing b with
  | nil =>
    refine ⟨rfl, hd, rfl, by simp [Sampling.buffer.run], ?_⟩
    simp [Sampling.buffer.run]
    omega
  | cons e es ih =>
    have hstep : b.buffer e.ctx e.handler e.record = (none, [], b.push e) := by
      simp [Sampling.buffer.buffer, hd]
    obtain ⟨p1, p2, p3, p4⟩ := sampling_push_spec b e hcap hlen
    have hd' : (b.push e).drained = false := by rw [p1, hd]
    have hcap' : 1 ≤ (b.push e).cap := by rw [p2]; exact hcap
    have hlen' : (b.push e).entries.length ≤ (b.push e).cap := by
      rw [p4, p2]
      omega
    obtain ⟨i1, i2, i3, i4, i5⟩ := ih (b.push e) hd' hcap' hlen'
    have hrun : b.run (e :: es) = ([] ++ ((b.push e).run es).1, ((b.push e).run es).2) := by
      simp [Sampling.buffer.run, hstep]
    refine ⟨?_, ?_, ?_, ?_, ?_⟩
    · rw [hrun]
      simpa using i1
    · rw [hrun]
      exact i2
    · rw [hrun]
      rw [i3, p2]
    · rw [hrun]
      simp only []
      rw [i4, p3]
      simp
    · rw [hrun]
      simp only []
      rw [i5, p4, p2]
      simp
      omega

/-- Claim C4: FIFO law — appending `e1..en` (more than the capacity) to a
fresh armed buffer emits nothing, and a subsequent `drain` emits exactly
`e1..en` in order, the overflow sequence (the oldest `n - cap` entries,
evicted from the queue head) flushed before the remaining queue contents. -/
theorem sampling_buffer_fifo (b0 : Sampling.buffer Ctx ε)
    (es : List (Sampling.entry Ctx ε))
    (h1 : b0.entries = []) (h2 : b0.overflow = []) (h3 : b0.drained = false)
    (h4 : 1 ≤ b0.cap) (h5 : b0.cap < es.length) :
    (b0.run es).1 = [] ∧
    ((b0.run es).2.drain).1 = es ∧
    ((b0.run es).2.drain).1 = (b0.run es).2.overflow ++ (b0.run es).2.entries ∧
    (b0.run es).2.overflow = es.take (es.length - b0.cap) ∧
    (b0.run es).2.entries = es.drop (es.length - b0.cap) := by
  obtain ⟨i1, i2, i3, i4, i5⟩ := sampling_run_spec es b0 h3 h4 (by simp [h1])
  rw [h1, h2] at i4
  rw [h1] at i5
  simp only [List.nil_append, List.append_nil, List.length_nil, Nat.zero_add] at i4 i5
  have hdrain : ((b0.run es).2.drain).1 = (b0.run es).2.overflow ++ (b0.run es).2.entries := by
    simp [Sampling.buffer.drain, i2]
  have hovlen : (b0.run es).2.overflow.length = es.length - b0.cap := by
    have hl := congrArg List.length i4
    simp only [List.length_append] at hl
    omega
  have htake : (b0.run es).2.overflow = es.take (es.length - b0.cap) := by
    have hTL := List.take_left ((b0.run es).2.overflow) ((b0.run es).2.entries)
    rw [i4, hovlen] at hTL
    exact hTL.symm
  have hdrop : (b0.run es).2.entries = es.drop (es.length - b0.cap) := by
    have hDL := List.drop_left ((b0.run es).2.overflow) ((b0.run es).2.entries)
    rw [i4, hovlen] at hDL
    exact hDL.symm
  exact ⟨i1, by rw [hdrain, i4], hdrain, htake, hdrop⟩

/-- Witness for C4: appending three concrete entries to a fresh buffer of
capacity one and draining emits them in order; the first two were evicted
into overflow, the third remains in the queue. -/
theorem sampling_buffer_fifo_witness :
    (let e1 : Sampling.entry Unit Unit := ⟨fun _ _ => none, (), ⟨0, 0, []⟩⟩
     let e2 : Sampling.entry Unit Unit := ⟨fun _ _ => none, (), ⟨1, 0, []⟩⟩
     let e3 : Sampling.entry Unit Unit := ⟨fun _ _ => none, (), ⟨2, 0, []⟩⟩
     let b0 : Sampling.buffer Unit Unit := ⟨[], 1, [], false⟩
     let es := [e1, e2, e3]
     (b0.run es).1 = [] ∧
     ((b0.run es).2.drain).1 = es ∧
     ((b0.run es).2.drain).1 = (b0.run es).2.overflow ++ (b0.run es).2.entries ∧
     (b0.run es).2.overflow = es.take (es.length - b0.cap) ∧
     (b0.run es).2.entries = es.drop (es.length - b0.cap)) :=
  sampling_buffer_fifo _ _ rfl rfl rfl (by decide) (by decide)

/-- Claim C7: appending entries to a fresh armed buffer and then calling
`reset` without ever draining emits nothing to any handler (`reset` itself
invokes none, and the appends deferred silently), discards all queued and
overflow entries, and leaves the buffer empty and un-drained — the state in
which it returns to the pool. -/
theorem sampling_reset_without_drain (b0 : Sampling.buffer Ctx ε)
    (es : List (Sampling.entry Ctx ε))
    (h1 : b0.entries = []) (h3 : b0.drained = false) (h4 : 1 ≤ b0.cap) :
    (b0.run es).1 = [] ∧
    ((b0.run es).2.reset).entries = [] ∧
    ((b0.run es).2.reset).overflow = [] ∧
    ((b0.run es).2.reset).drained = false := by
  obtain ⟨i1, i2, _, _, _⟩ := sampling_run_spec es b0 h3 h4 (by simp [h1])
  exact ⟨i1, by simp [Sampling.buffer.reset, i2], by simp [Sampling.buffer.reset, i2],
    by simp [Sampling.buffer.reset, i2]⟩

/-- Witness for C7: two entries appended to a fresh capacity-1 buffer and
then reset without draining — nothing is emitted and the buffer comes back
empty and armed. -/
theorem sampling_reset_without_drain_witness :
    (let e1 : Sampling.entry Unit Unit := ⟨fun _ _ => none, (), ⟨0, 0, []⟩⟩
     let e2 : Sampling.entry Unit Unit := ⟨fun _ _ => none, (), ⟨1, 0, []⟩⟩
     let b0 : Sampling.buffer Unit Unit := ⟨[], 1, [], false⟩
     (b0.run [e1, e2]).1 = [] ∧
     ((b0.run [e1, e2]).2.reset).entries = [] ∧
     ((b0.run [e1, e2]).2.reset).overflow = [] ∧
     ((b0.run [e1, e2]).2.reset).drained = false) :=
  sampling_reset_without_drain _ _ rfl rfl (by decide)

/-- With `every ≠ 0`, the negation of the drop condition
`n > first ∧ (every = 0 ∨ (n - first) % every ≠ 0)` is exactly
`n ≤ first ∨ (n - first) % every = 0`. -/
theorem rate_keep_iff (f e n : Nat) (he : e ≠ 0) :
    (!decide (n > f ∧ (e = 0 ∨ (n - f) % e ≠ 0))) =
      decide (n ≤ f ∨ (n - f) % e = 0) := by
  by_cases h1 : n ≤ f
  · simp [h1, not_lt.mpr h1]
  · by_cases h2 : (n - f) % e = 0
    · simp [h1, h2, he, not_le.mp h1]
    · simp [h1, h2, he, not_le.mp h1]

/-- Decomposition of the rate-limiting `Handle`: the returned ordinal and
counter table come from `counters.inc`, and the forwarding flag is the
negation of the drop condition. -/
theorem rate_handle_parts (h : Rate.Handler Ctx ε) (tbl : Rate.counters)
    (ctx : Ctx) (r : Record) :
    (h.Handle tbl ctx r).n =
      (Rate.counters.inc tbl r.level r.message r.time h.interval).1 ∧
    (h.Handle tbl ctx r).tbl =
      (Rate.counters.inc tbl r.level r.message r.time h.interval).2 ∧
    (h.Handle tbl ctx r).forwarded =
      !decide ((Rate.counters.inc tbl r.level r.message r.time h.interval).1 > h.first ∧
        (h.every = 0 ∨
          ((Rate.counters.inc tbl r.level r.message r.time h.interval).1 - h.first)
            % h.every ≠ 0)) := by
  by_cases hc : (Rate.counters.inc tbl r.level r.message r.time h.interval).1 > h.first ∧
      (h.every = 0 ∨
        ((Rate.counters.inc tbl r.level r.message r.time h.interval).1 - h.first)
          % h.every ≠ 0)
  · refine ⟨?_, ?_, ?_⟩ <;> simp [Rate.Handler.Handle, hc]
  · refine ⟨?_, ?_, ?_⟩ <;> simp [Rate.Handler.Handle, hc]

/-- Inside one live window (every record's time strictly before the shard's
`resetAt`), a sequential run over records of one `(level, message)` shard
starting from count `m` forwards exactly the calls whose ordinal `m + i + 1`
is at most `first` or hits the every-Mth pattern, and advances the shard's
count by the number of records without moving `resetAt`. -/
theorem rate_run_window (h : Rate.Handler Ctx ε) (ctx : Ctx) (L R : Int)
    (M : List Nat) (hev : h.every ≠ 0) (rs : List Record) :
    ∀ (m : Nat) (tbl : Rate.counters),
      tbl (Rate.countersGet L M) = ⟨R, m⟩ →
      (∀ r ∈ rs, r.level = L ∧ r.message = M ∧ r.time < R) →
      (h.run tbl ctx rs).1 = (List.range rs.length).map
        (fun i => decide (m + i + 1 ≤ h.first ∨ (m + i + 1 - h.first) % h.every = 0)) ∧
      (h.run tbl ctx rs).2 (Rate.countersGet L M) = ⟨R, m + rs.length⟩ := by
  induction rs with
  | nil =>
    intro m tbl hcell _
    exact ⟨rfl, by simpa [Rate.Handler.run] using hcell⟩
  | cons r rs ih =>
    intro m tbl hcell hall
    obtain ⟨hrl, hrm, hrt⟩ := hall r (List.mem_cons_self r rs)
    have hinc : Rate.counters.inc tbl r.level r.message r.time h.interval =
        (m + 1, fun i => if i = Rate.countersGet L M then ⟨R, m + 1⟩ else tbl i) := by
      simp [Rate.counters.inc, hrl, hrm, hcell, Rate.counter.Inc, hrt]
    obtain ⟨hn, htbl, hfwd⟩ := rate_handle_parts h tbl ctx r
    rw [hinc] at hn htbl hfwd
    have hfwd' : (h.Handle tbl ctx r).forwarded =
        decide (m + 1 ≤ h.first ∨ (m + 1 - h.first) % h.every = 0) := by
      rw [hfwd]
      exact rate_keep_iff h.first h.every (m + 1) hev
    have hcell' : (h.Handle tbl ctx r).tbl (Rate.countersGet L M) = ⟨R, m + 1⟩ := by
      rw [htbl]
      simp
    obtain ⟨j1, j2⟩ := ih (m + 1) (h.Handle tbl ctx r).tbl hcell'
      (fun r' hr' => hall r' (List.mem_cons_of_mem r hr'))
    have hrun1 : (h.run tbl ctx (r :: rs)).1 =
        (h.Handle tbl ctx r).forwarded :: (h.run (h.Handle tbl ctx r).tbl ctx rs).1 := rfl
    have hrun2 : (h.run tbl ctx (r :: rs)).2 =
        (h.run (h.Handle tbl ctx r).tbl ctx rs).2 := rfl
    constructor
    · rw [hrun1, hfwd', j1]
      simp only [List.length_cons, List.range_succ_eq_map, List.map_cons, List.map_map]
      have hhead : (decide (m + 1 ≤ h.first ∨ (m + 1 - h.first) % h.every = 0)) =
          (decide (m + 0 + 1 ≤ h.first ∨ (m + 0 + 1 - h.first) % h.every = 0)) := by
        norm_num
      have htail : (List.range rs.length).map
            (fun i => decide (m + 1 + i + 1 ≤ h.first ∨ (m + 1 + i + 1 - h.first) % h.every = 0)) =
          (List.range rs.length).map
            ((fun i => decide (m + i + 1 ≤ h.first ∨ (m + i + 1 - h.first) % h.every = 0)) ∘
              Nat.succ) := by
        apply List.map_congr_left
        intro i _
        simp only [Function.comp_apply]
        have harith : m + 1 + i + 1 = m + Nat.succ i + 1 := by omega
        rw [harith]
      rw [hhead, htail]
    · rw [hrun2, j2]
      simp only [List.length_cons]
      rw [show m + 1 + rs.length = m + (rs.length + 1) by omega]

/-- Claim C1: with `n` the ordinal the counter returns for the record's
`(level, message)` shard, `Handle` returns nil without calling downstream
when `n > first ∧ (every = 0 ∨ (n - first) % every ≠ 0)`, and otherwise
forwards the record unmodified returning the downstream result; and for
`every ≠ 0`, across sequential calls of one `(level, message)` within one
window starting from a fresh table, exactly the calls with ordinal
`n ≤ first` or `(n - first) % every = 0` reach the downstream handler. -/
theorem rate_limit_policy (h : Rate.Handler Ctx ε) (ctx : Ctx) :
    (∀ (tbl : Rate.counters) (r : Record),
      (((h.Handle tbl ctx r).n > h.first ∧
          (h.every = 0 ∨ ((h.Handle tbl ctx r).n - h.first) % h.every ≠ 0)) →
        (h.Handle tbl ctx r).err = none ∧ (h.Handle tbl ctx r).forwarded = false) ∧
      (¬((h.Handle tbl ctx r).n > h.first ∧
          (h.every = 0 ∨ ((h.Handle tbl ctx r).n - h.first) % h.every ≠ 0)) →
        (h.Handle tbl ctx r).err = h.handler ctx r ∧
          (h.Handle tbl ctx r).forwarded = true)) ∧
    (∀ (r0 : Record) (rs : List Record) (L : Int) (M : List Nat),
      h.every ≠ 0 →
      (∀ r ∈ r0 :: rs, r.level = L ∧ r.message = M) →
      0 ≤ r0.time →
      (∀ r ∈ rs, r.time < r0.time + h.interval) →
      (h.run Rate.counters.fresh ctx (r0 :: rs)).1 =
        (List.range (r0 :: rs).length).map
          (fun i => decide (i + 1 ≤ h.first ∨ (i + 1 - h.first) % h.every = 0))) := by
  refine ⟨fun tbl r => ?_, fun r0 rs L M hev hLM ht0 hts => ?_⟩
  · obtain ⟨hn, -, -⟩ := rate_handle_parts h tbl ctx r
    rw [hn]
    by_cases hc : ((Rate.counters.inc tbl r.level r.message r.time h.interval).1 > h.first ∧
        (h.every = 0 ∨
          ((Rate.counters.inc tbl r.level r.message r.time h.interval).1 - h.first)
            % h.every ≠ 0))
    · exact ⟨fun _ => by simp [Rate.Handler.Handle, hc], fun hnc => absurd hc hnc⟩
    · exact ⟨fun hcc => absurd hcc hc, fun _ => by simp [Rate.Handler.Handle, hc]⟩
  · obtain ⟨hl0, hm0⟩ := hLM r0 (List.mem_cons_self r0 rs)
    have hinc0 : Rate.counters.inc Rate.counters.fresh r0.level r0.message r0.time h.interval =
        (1, fun i => if i = Rate.countersGet L M then ⟨r0.time + h.interval, 1⟩
          else Rate.counters.fresh i) := by
      simp [Rate.counters.inc, hl0, hm0, Rate.counters.fresh, Rate.counter.Inc,
        not_lt.mpr ht0]
    obtain ⟨hn, htbl, hfwd⟩ := rate_handle_parts h Rate.counters.fresh ctx r0
    rw [hinc0] at hn htbl hfwd
    have hfwd' : (h.Handle Rate.counters.fresh ctx r0).forwarded =
        decide (1 ≤ h.first ∨ (1 - h.first) % h.every = 0) := by
      rw [hfwd]
      exact rate_keep_iff h.first h.every 1 hev
    have hcell' : (h.Handle Rate.counters.fresh ctx r0).tbl (Rate.countersGet L M) =
        ⟨r0.time + h.interval, 1⟩ := by
      rw [htbl]
      simp
    have hall : ∀ r ∈ rs, r.level = L ∧ r.message = M ∧ r.time < r0.time + h.interval := by
      intro r' hr'
      obtain ⟨ha, hb⟩ := hLM r' (List.mem_cons_of_mem r0 hr')
      exact ⟨ha, hb, hts r' hr'⟩
    obtain ⟨j1, j2⟩ := rate_run_window h ctx L (r0.time + h.interval) M hev rs 1
      (h.Handle Rate.counters.fresh ctx r0).tbl hcell' hall
    have hrun1 : (h.run Rate.counters.fresh ctx (r0 :: rs)).1 =
        (h.Handle Rate.counters.fresh ctx r0).forwarded ::
          (h.run (h.Handle Rate.counters.fresh ctx r0).tbl ctx rs).1 := rfl
    rw [hrun1, hfwd', j1]
    simp only [List.length_cons, List.range_succ_eq_map, List.map_cons, List.map_map]
    have hhead : (decide (1 ≤ h.first ∨ (1 - h.first) % h.every = 0)) =
        (decide (0 + 1 ≤ h.first ∨ (0 + 1 - h.first) % h.every = 0)) := by
      norm_num
    have htail : (List.range rs.length).map
          (fun i => decide (1 + i + 1 ≤ h.first ∨ (1 + i + 1 - h.first) % h.every = 0)) =
        (List.range rs.length).map
          ((fun i => decide (i + 1 ≤ h.first ∨ (i + 1 - h.first) % h.every = 0)) ∘
            Nat.succ) := by
      apply List.map_congr_left
      intro i _
      simp only [Function.comp_apply]
      have harith : 1 + i + 1 = Nat.succ i + 1 := by omega
      rw [harith]
    rw [hhead, htail]

/-- Witness for C1: first = 1, every = 2, interval = 10 on four sequential
records of one (level, message) inside one window — ordinals 1..4, of which
1 (≤ first) and 3 ((3-1) mod 2 = 0) are forwarded. -/
theorem rate_limit_policy_witness :
    ((⟨fun _ _ => none, 10, 1, 2, 0⟩ : Rate.Handler Unit Unit).run
        Rate.counters.fresh () [⟨0, 5, [7]⟩, ⟨1, 5, [7]⟩, ⟨2, 5, [7]⟩, ⟨3, 5, [7]⟩]).1 =
      [true, false, true, false] := by
  have hp := (rate_limit_policy (⟨fun _ _ => none, 10, 1, 2, 0⟩ : Rate.Handler Unit Unit) ()).2
    ⟨0, 5, [7]⟩ [⟨1, 5, [7]⟩, ⟨2, 5, [7]⟩, ⟨3, 5, [7]⟩] 5 [7]
    (by decide) (by decide) (by decide) (by decide)
  rw [hp]
  decide
